import Mathlib

/-!
# Shard inventory and format detection: a shallow embedding

This file embeds the shard-discovery-and-classification subsystem of the
`influx_tsm` tool (the `ShardInfo` record, the `ShardInfos` collection
operations `Less` / `Filter` / `Databases`, the directory walker
`Database.Shards`, and the format detector `shardFormat`) and proves the
spec-level properties about it.

Conventions of the embedding:
* Go machine integers (`int`, `int64`) are modelled as `Int`.
* Fallible Go functions returning `(..., error)` are modelled with
  `Except Err _`; `panic` is modelled as `Option.none`.
* The filesystem and the embedded BoltDB store are modelled as an oracle
  (`FS`): a record of the exact operations the source performs
  (`os.Open`, `File.Readdirnames`, `File.Stat`, `bolt.Open`), each a
  function of the path.  Paths are opaque keys into the oracle;
  `filepath.Join` is modelled as interposing `"/"` (Go's `Join` also
  applies `Clean`, which is the identity on the already-clean paths that
  arise here).
* Go string comparison is byte-wise lexicographic; on UTF-8 encoded
  strings this coincides with code-point lexicographic order, embedded
  here as the structurally recursive `charListLt` on `List Char` (and
  proved equivalent to Mathlib's lexicographic order on `String`).
-/

namespace InfluxTsm

/-- Errors carried by fallible operations (`error` values in the source are
opaque and propagated unchanged; a string payload stands for the value). -/
abbrev Err := String

/-- Go string `<` (byte-wise lexicographic, equivalently code-point
lexicographic), as a structurally recursive Bool-valued comparison on the
character lists. -/
def charListLt : List Char → List Char → Bool
  | _, [] => false
  | [], _ :: _ => true
  | a :: as, b :: bs => if a = b then charListLt as bs else decide (a < b)

/-- Go `s < t` on strings. -/
def strLt (a b : String) : Bool :=
  charListLt a.toList b.toList

/-- `type EngineFormat int` from the source: an *integer* type whose three
named values are produced by `iota`.  Being an integer type, values outside
the three named constants are representable. -/
abbrev EngineFormat := Int

/-- `b1 = iota` (value 0). -/
def b1 : EngineFormat := 0

/-- `bz1` (value 1). -/
def bz1 : EngineFormat := 1

/-- `tsm1` (value 2). -/
def tsm1 : EngineFormat := 2

/-- ShardInfo is the description of a shard on disk. -/
structure ShardInfo where
  Database        : String
  RetentionPolicy : String
  Path            : String
  Format          : EngineFormat
  Size            : Int
deriving DecidableEq, Repr

/-- `(*ShardInfo).FormatAsString`: the `switch` over the format.  The
`default` branch of the source is `panic("unrecognized shard engine
format")`; the panic (abnormal termination, no value produced) is modelled
as `none`. -/
def ShardInfo.FormatAsString (s : ShardInfo) : Option String :=
  if s.Format = tsm1 then some "tsm1"
  else if s.Format = b1 then some "b1"
  else if s.Format = bz1 then some "bz1"
  else none

/-- `type ShardInfos []*ShardInfo`. -/
abbrev ShardInfos := List ShardInfo

/-- `ShardInfos.Less(i, j)`, expressed on the two compared elements
`a = s[i]`, `b = s[j]`.  Note the tertiary comparison of the source is
`s[i].Path < s[i].Path` — the left index both times — which is preserved
verbatim here as `strLt a.Path a.Path`. -/
def ShardInfos.Less (a b : ShardInfo) : Bool :=
  if a.Database = b.Database then
    if a.RetentionPolicy = b.RetentionPolicy then
      strLt a.Path a.Path
    else
      strLt a.RetentionPolicy b.RetentionPolicy
  else
    strLt a.Database b.Database

/-- `ShardInfos.Filter`: the source loop appends, in order, every entry
whose format differs from `fmt` to a fresh slice. -/
def ShardInfos.Filter (s : ShardInfos) (fmt : EngineFormat) : ShardInfos :=
  s.foldl (fun a ss => if ss.Format = fmt then a else a ++ [ss]) []

/-- The non-strict order `sort.Strings` establishes: `a` may precede `b`
iff `b < a` is false. -/
def strOrd (a b : String) : Prop := strLt b a = false

instance : DecidableRel strOrd := fun a b => Bool.decEq (strLt b a) false

/-- `ShardInfos.Databases`: the source collects the `Database` fields as
keys of a `map[string]bool` (whose key set is the set of distinct values;
iteration order is unspecified) and then sorts them with `sort.Strings`.
Since the sorted duplicate-free list of a finite set of strings is unique,
the map is modelled by `dedup` and `sort.Strings` by a sort under the
string order. -/
def ShardInfos.Databases (s : ShardInfos) : List String :=
  List.insertionSort strOrd (s.map ShardInfo.Database).dedup

/-- Result of `os.File.Stat()`: the mode's directory bit and the size. -/
structure FileInfo where
  isDir : Bool
  size  : Int
deriving DecidableEq, Repr

/-- A BoltDB bucket: an association of keys to values.  `Get` on a missing
key returns Go's nil byte slice, which `string(...)` converts to `""`. -/
structure Bucket where
  entries : List (String × String)
deriving DecidableEq, Repr

/-- `(*bolt.Bucket).Get`: `none` models a nil result. -/
def Bucket.Get (b : Bucket) (k : String) : Option String :=
  b.entries.lookup k

/-- An opened BoltDB store: its named top-level buckets. -/
structure BoltDB where
  buckets : List (String × Bucket)
deriving DecidableEq, Repr

/-- `(*bolt.Tx).Bucket`: `none` models a nil result (bucket absent). -/
def BoltDB.Bucket (db : BoltDB) (name : String) : Option Bucket :=
  db.buckets.lookup name

/-- The filesystem/store oracle: one field per external operation the
source performs, each a function of the path.
* `osOpen p`: `os.Open(p)` — `none` means success, `some e` the error.
* `readdirnames p`: `File.Readdirnames(-1)` on the open directory `p` —
  the names read and, possibly, an error encountered before the end of
  the directory (Go returns both: names read so far *and* the error).
* `stat p`: `File.Stat()` on the open file `p`.
* `boltOpen p`: `bolt.Open(p, 0666, &bolt.Options{Timeout: 1s})` — covers
  the open-timeout and corruption failures. -/
structure FS where
  osOpen       : String → Option Err
  readdirnames : String → List String × Option Err
  stat         : String → Except Err FileInfo
  boltOpen     : String → Except Err BoltDB

/-- `path.Base` from Go's `path` package: empty string gives ".",
trailing slashes are stripped, the part after the last "/" is kept, and
an all-slash path gives "/". -/
def pathBase (p : String) : String :=
  if p = "" then "."
  else
    let cs := (p.toList.reverse.dropWhile (fun c => c = '/')).reverse
    let base := (cs.reverse.takeWhile (fun c => c ≠ '/')).reverse
    if base = [] then "/" else String.mk base

/-- `filepath.Join(a, b)`.  (`Join` also runs `Clean`, the identity on the
clean paths used as oracle keys here.) -/
def filepathJoin (a b : String) : String := a ++ "/" ++ b

/-- Database represents an entire database on disk. -/
structure Database where
  path : String

/-- NewDatabase creates a database instance using data at path. -/
def NewDatabase (p : String) : Database := ⟨p⟩

/-- Name returns the name of the database. -/
def Database.Name (d : Database) : String := pathBase d.path

/-- The body of the `db.View(func(tx *bolt.Tx) error {...})` closure of
`shardFormat`: pick `b1` when the "meta" bucket is absent or its "format"
key reads "v1", else `bz1`.  (The closure always returns a nil error, so
`View`'s error result is nil.) -/
def viewFormat (db : BoltDB) : EngineFormat :=
  match BoltDB.Bucket db "meta" with
  | none => b1
  | some b =>
    if (Bucket.Get b "format").getD "" = "v1" then b1 else bz1

/-- shardFormat returns the format and size on disk of the shard at path. -/
def shardFormat (fs : FS) (p : String) : Except Err (EngineFormat × Int) :=
  match fs.osOpen p with
  | some e => Except.error e
  | none =>
    match fs.stat p with
    | Except.error e => Except.error e
    | Except.ok fi =>
      if fi.isDir then Except.ok (tsm1, fi.size)
      else
        match fs.boltOpen p with
        | Except.error e => Except.error e
        | Except.ok db => Except.ok (viewFormat db, fi.size)

/-- The inner loop of `Database.Shards` over the names listed inside one
retention-policy directory: classify each shard, stopping at the first
error. -/
def processShards (fs : FS) (dbName dpath rp : String) :
    List String → Except Err (List ShardInfo)
  | [] => Except.ok []
  | sh :: rest =>
    match shardFormat fs (filepathJoin (filepathJoin dpath rp) sh) with
    | Except.error e => Except.error e
    | Except.ok (f, sz) =>
      match processShards fs dbName dpath rp rest with
      | Except.error e => Except.error e
      | Except.ok tl => Except.ok (ShardInfo.mk dbName (pathBase rp) sh f sz :: tl)

/-- The outer loop of `Database.Shards` over the retention-policy names.
Faithful to the source: the error returned by `rpfd.Readdirnames(-1)`
(line 123) is assigned but never checked, so the names read so far are
processed and the error value is dropped. -/
def processRps (fs : FS) (dbName dpath : String) :
    List String → Except Err (List ShardInfo)
  | [] => Except.ok []
  | rp :: rest =>
    match fs.osOpen (filepathJoin dpath rp) with
    | some e => Except.error e
    | none =>
      match processShards fs dbName dpath rp (fs.readdirnames (filepathJoin dpath rp)).1 with
      | Except.error e => Except.error e
      | Except.ok infos =>
        match processRps fs dbName dpath rest with
        | Except.error e => Except.error e
        | Except.ok tlInfos => Except.ok (infos ++ tlInfos)

/-- The non-strict order on shard records induced by `ShardInfos.Less`:
`a` may precede `b` iff `Less b a` is false.  `sort.Sort` guarantees
exactly that the output is ordered under this relation (tie order among
`Less`-equivalent elements is unspecified). -/
def shardLE (a b : ShardInfo) : Prop := ShardInfos.Less b a = false

instance : DecidableRel shardLE := fun a b => Bool.decEq (ShardInfos.Less b a) false

/-- Shards returns information for every shard in the database.
`sort.Sort(ShardInfos(shardInfos))` is modelled as a comparison sort
producing a permutation ordered under `shardLE` (Go's `sort.Sort` is
unstable; the model realizes one of the permitted permutations). -/
def Database.Shards (fs : FS) (d : Database) : Except Err (List ShardInfo) :=
  match fs.osOpen d.path with
  | some e => Except.error e
  | none =>
    match (fs.readdirnames d.path).2 with
    | some e => Except.error e
    | none =>
      match processRps fs (Database.Name d) d.path (fs.readdirnames d.path).1 with
      | Except.error e => Except.error e
      | Except.ok infos => Except.ok (List.insertionSort shardLE infos)

/-! ## Bridging the executable string comparison to the lexicographic order -/

theorem charListLt_self : ∀ as : List Char, charListLt as as = false
  | [] => rfl
  | a :: as => by simp [charListLt, charListLt_self as]

theorem strLt_self (a : String) : strLt a a = false :=
  charListLt_self a.toList

theorem charListLt_iff (as bs : List Char) :
    charListLt as bs = true ↔ List.Lex (· < ·) as bs := by
  induction as generalizing bs with
  | nil =>
    cases bs with
    | nil => simp [charListLt, List.Lex.not_nil_right]
    | cons b bs => simpa [charListLt] using List.Lex.nil
  | cons a as ih =>
    cases bs with
    | nil => simp [charListLt, List.Lex.not_nil_right]
    | cons b bs =>
      by_cases hab : a = b
      · subst hab
        rw [show charListLt (a :: as) (a :: bs) = charListLt as bs by
          simp [charListLt], ih]
        exact List.Lex.cons_iff.symm
      · rw [show charListLt (a :: as) (b :: bs) = decide (a < b) by
          simp [charListLt, hab], decide_eq_true_iff]
        constructor
        · exact fun h => List.Lex.rel h
        · intro h
          cases h with
          | cons h => exact absurd rfl hab
          | rel h => exact h

theorem strLt_iff (a b : String) : strLt a b = true ↔ a < b := by
  rw [String.lt_iff_toList_lt]
  exact charListLt_iff a.toList b.toList

theorem strLt_false_iff (a b : String) : (strLt a b = false) ↔ b ≤ a := by
  rw [← Bool.not_eq_true, strLt_iff, not_lt]

theorem strOrd_iff (a b : String) : strOrd a b ↔ a ≤ b :=
  strLt_false_iff b a

instance : IsTotal String strOrd :=
  ⟨fun a b => by rw [strOrd_iff, strOrd_iff]; exact le_total a b⟩

instance : IsTrans String strOrd :=
  ⟨fun a b c hab hbc => by
    rw [strOrd_iff] at hab hbc ⊢
    exact le_trans hab hbc⟩

/-- The comparator `ShardInfos.Less` holds exactly when the databases are
strictly ordered, or are equal and the retention policies are strictly
ordered: the tertiary path comparison never contributes. -/
theorem Less_eq_true_iff (a b : ShardInfo) :
    ShardInfos.Less a b = true ↔
      a.Database < b.Database ∨
        (a.Database = b.Database ∧ a.RetentionPolicy < b.RetentionPolicy) := by
  unfold ShardInfos.Less
  by_cases hdb : a.Database = b.Database
  · rw [if_pos hdb]
    by_cases hrp : a.RetentionPolicy = b.RetentionPolicy
    · rw [if_pos hrp, strLt_self]
      simp [hdb, hrp]
    · rw [if_neg hrp, strLt_iff]
      simp [hdb]
  · rw [if_neg hdb, strLt_iff]
    simp [hdb]

theorem shardLE_iff (a b : ShardInfo) :
    shardLE a b ↔
      a.Database ≤ b.Database ∧
        (a.Database = b.Database → a.RetentionPolicy ≤ b.RetentionPolicy) := by
  unfold shardLE
  rw [← Bool.not_eq_true, Less_eq_true_iff]
  push_neg
  constructor
  · rintro ⟨h1, h2⟩
    exact ⟨not_lt.mp h1, fun hdb => not_lt.mp (h2 hdb.symm)⟩
  · rintro ⟨h1, h2⟩
    exact ⟨not_lt.mpr h1, fun hdb => not_lt.mpr (h2 hdb.symm)⟩

instance : IsTotal ShardInfo shardLE :=
  ⟨fun a b => by
    rw [shardLE_iff, shardLE_iff]
    rcases lt_trichotomy a.Database b.Database with h | h | h
    · exact Or.inl ⟨h.le, fun hdb => absurd hdb h.ne⟩
    · rcases le_total a.RetentionPolicy b.RetentionPolicy with hrp | hrp
      · exact Or.inl ⟨le_of_eq h, fun _ => hrp⟩
      · exact Or.inr ⟨le_of_eq h.symm, fun _ => hrp⟩
    · exact Or.inr ⟨h.le, fun hdb => absurd hdb h.ne⟩⟩

instance : IsTrans ShardInfo shardLE :=
  ⟨fun a b c hab hbc => by
    rw [shardLE_iff] at hab hbc ⊢
    obtain ⟨h1, h2⟩ := hab
    obtain ⟨h3, h4⟩ := hbc
    refine ⟨le_trans h1 h3, fun hac => ?_⟩
    have hdb : a.Database = b.Database :=
      le_antisymm h1 (by rw [hac]; exact h3)
    exact le_trans (h2 hdb) (h4 (hdb.symm.trans hac))⟩

/-! ## Helper lemmas about the detector and the scan -/

theorem viewFormat_cases (db : BoltDB) : viewFormat db = b1 ∨ viewFormat db = bz1 := by
  rcases hB : BoltDB.Bucket db "meta" with _ | b
  · simp [viewFormat, hB]
  · by_cases h : (Bucket.Get b "format").getD "" = "v1" <;>
      simp [viewFormat, hB, h]

theorem shardFormat_ok_format (fs : FS) (p : String) (f : EngineFormat) (sz : Int)
    (h : shardFormat fs p = Except.ok (f, sz)) : f = b1 ∨ f = bz1 ∨ f = tsm1 := by
  unfold shardFormat at h
  rcases hop : fs.osOpen p with _ | e
  · simp only [hop] at h
    rcases hst : fs.stat p with e | fi
    · simp [hst] at h
    · simp only [hst] at h
      by_cases hd : fi.isDir = true
      · rw [if_pos hd] at h
        simp only [Except.ok.injEq, Prod.mk.injEq] at h
        exact Or.inr (Or.inr h.1.symm)
      · rw [if_neg hd] at h
        rcases hbo : fs.boltOpen p with e | db
        · simp [hbo] at h
        · simp only [hbo, Except.ok.injEq, Prod.mk.injEq] at h
          rcases viewFormat_cases db with hv | hv
          · exact Or.inl (h.1.symm.trans hv)
          · exact Or.inr (Or.inl (h.1.symm.trans hv))
  · simp [hop] at h

theorem processShards_formats (fs : FS) (dbName dpath rp : String) :
    ∀ (shs : List String) (infos : List ShardInfo),
      processShards fs dbName dpath rp shs = Except.ok infos →
      ∀ si ∈ infos, si.Format = b1 ∨ si.Format = bz1 ∨ si.Format = tsm1
  | [], infos, h => by
    simp only [processShards, Except.ok.injEq] at h
    subst h; simp
  | sh :: rest, infos, h => by
    unfold processShards at h
    rcases hsf : shardFormat fs (filepathJoin (filepathJoin dpath rp) sh) with e | ⟨f, sz⟩
    · rw [hsf] at h; exact absurd h (by simp)
    · rw [hsf] at h
      rcases hrest : processShards fs dbName dpath rp rest with e | tl
      · rw [hrest] at h; exact absurd h (by simp)
      · rw [hrest] at h
        simp only [Except.ok.injEq] at h
        subst h
        intro si hsi
        rcases List.mem_cons.mp hsi with hsi | hsi
        · subst hsi
          simpa using shardFormat_ok_format fs _ f sz hsf
        · exact processShards_formats fs dbName dpath rp rest tl hrest si hsi

theorem processRps_formats (fs : FS) (dbName dpath : String) :
    ∀ (rps : List String) (infos : List ShardInfo),
      processRps fs dbName dpath rps = Except.ok infos →
      ∀ si ∈ infos, si.Format = b1 ∨ si.Format = bz1 ∨ si.Format = tsm1
  | [], infos, h => by
    simp only [processRps, Except.ok.injEq] at h
    subst h; simp
  | rp :: rest, infos, h => by
    unfold processRps at h
    rcases hop : fs.osOpen (filepathJoin dpath rp) with _ | e
    · rw [hop] at h
      rcases hps : processShards fs dbName dpath rp
          (fs.readdirnames (filepathJoin dpath rp)).1 with e | infos1
      · rw [hps] at h; exact absurd h (by simp)
      · rw [hps] at h
        rcases hpr : processRps fs dbName dpath rest with e | infos2
        · rw [hpr] at h; exact absurd h (by simp)
        · rw [hpr] at h
          simp only [Except.ok.injEq] at h
          subst h
          intro si hsi
          rcases List.mem_append.mp hsi with hsi | hsi
          · exact processShards_formats fs dbName dpath rp _ infos1 hps si hsi
          · exact processRps_formats fs dbName dpath rest infos2 hpr si hsi
    · rw [hop] at h; exact absurd h (by simp)

/-- A successful `Shards` call is the `shardLE`-sort of the records the
retention-policy traversal produced. -/
theorem shards_ok_elim (fs : FS) (d : Database) (l : List ShardInfo)
    (h : Database.Shards fs d = Except.ok l) :
    ∃ infos,
      processRps fs (Database.Name d) d.path (fs.readdirnames d.path).1
          = Except.ok infos ∧
        l = List.insertionSort shardLE infos := by
  unfold Database.Shards at h
  rcases hop : fs.osOpen d.path with _ | e
  · rw [hop] at h
    rcases hrd : (fs.readdirnames d.path).2 with _ | e
    · rw [hrd] at h
      rcases hpr : processRps fs (Database.Name d) d.path
          (fs.readdirnames d.path).1 with e | infos
      · rw [hpr] at h; exact absurd h (by simp)
      · rw [hpr] at h
        simp only [Except.ok.injEq] at h
        exact ⟨infos, rfl, h.symm⟩
    · rw [hrd] at h; exact absurd h (by simp)
  · rw [hop] at h; exact absurd h (by simp)

theorem filter_foldl_eq (fmt : EngineFormat) :
    ∀ (s acc : List ShardInfo),
      List.foldl (fun a ss => if ss.Format = fmt then a else a ++ [ss]) acc s
        = acc ++ s.filter (fun ss => decide (ss.Format ≠ fmt))
  | [], acc => by simp
  | ss :: rest, acc => by
    by_cases h : ss.Format = fmt
    · simp only [List.foldl_cons, if_pos h, List.filter_cons]
      rw [filter_foldl_eq fmt rest acc]
      simp [h]
    · simp only [List.foldl_cons, if_neg h, List.filter_cons]
      rw [filter_foldl_eq fmt rest (acc ++ [ss])]
      simp [h]

/-! ## Witness fixtures: concrete oracles -/

/-- A concrete filesystem: `data/db` holds retention-policy directories
`rp1` and `rp0` (listed in that order), each holding one directory shard. -/
def dirFS : FS where
  osOpen := fun _ => none
  readdirnames := fun p =>
    if p = "data/db" then (["rp1", "rp0"], none)
    else if p = "data/db/rp1" then (["s1"], none)
    else if p = "data/db/rp0" then (["s0"], none)
    else ([], none)
  stat := fun _ => Except.ok ⟨true, 4096⟩
  boltOpen := fun _ => Except.error "not a bolt file"

/-- The records a successful scan of `dirFS` yields, in sorted order. -/
def dirShards : List ShardInfo :=
  [ShardInfo.mk "db" "rp0" "s0" tsm1 4096, ShardInfo.mk "db" "rp1" "s1" tsm1 4096]

/-- A concrete filesystem of single-file (BoltDB) shards: `f0` has no
"meta" bucket, `f1` has `format = "v1"`, `f2` has `format = "v2"`, `f3`
has a "meta" bucket without a "format" key. -/
def boltFS : FS where
  osOpen := fun _ => none
  readdirnames := fun _ => ([], none)
  stat := fun _ => Except.ok ⟨false, 100⟩
  boltOpen := fun p =>
    if p = "f0" then Except.ok ⟨[]⟩
    else if p = "f1" then Except.ok ⟨[("meta", ⟨[("format", "v1")]⟩)]⟩
    else if p = "f2" then Except.ok ⟨[("meta", ⟨[("format", "v2")]⟩)]⟩
    else if p = "f3" then Except.ok ⟨[("meta", ⟨[]⟩)]⟩
    else Except.error "no such file"

/-- A root whose single retention-policy directory `data/db/rp0` opens
fine but whose listing fails with "permission denied" (Go's
`Readdirnames` returns the names read so far — none — plus the error). -/
def listFailFS : FS where
  osOpen := fun _ => none
  readdirnames := fun p =>
    if p = "data/db" then (["rp0"], none)
    else if p = "data/db/rp0" then ([], some "permission denied")
    else ([], none)
  stat := fun _ => Except.error "unused"
  boltOpen := fun _ => Except.error "unused"

/-! ## The claims -/

/-- Claim C1 (refuted by the code, supporting the `code_bug` verdict): the
claim says a directory-listing failure on a retention-policy
sub-directory aborts the whole `Shards` call with the error.  The source
(line 123) assigns the error from `rpfd.Readdirnames(-1)` but never
checks it, so on `listFailFS` — where listing `data/db/rp0` fails with
"permission denied" — the call nevertheless returns success with the
records of whatever names were read (here none), not the error. -/
theorem shards_drops_rp_listing_error :
    (listFailFS.readdirnames "data/db/rp0").2 = some "permission denied" ∧
    Database.Shards listFailFS (NewDatabase "data/db") = Except.ok [] :=
  ⟨rfl, rfl⟩

/-- Claim C2: for a shard file opened as an embedded key-value store
(open succeeds, stat succeeds, not a directory, bolt-open succeeds),
`shardFormat` classifies it as `b1` when the "meta" bucket is absent, as
`b1` when the bucket's "format" key holds "v1", and as `bz1` when the
"format" key holds any other value or is missing. -/
theorem shardFormat_bolt_classification (fs : FS) (p : String) (fi : FileInfo)
    (db : BoltDB) (hop : fs.osOpen p = none) (hst : fs.stat p = Except.ok fi)
    (hd : fi.isDir = false) (hbo : fs.boltOpen p = Except.ok db) :
    (BoltDB.Bucket db "meta" = none →
        shardFormat fs p = Except.ok (b1, fi.size)) ∧
    (∀ bk, BoltDB.Bucket db "meta" = some bk →
      (Bucket.Get bk "format" = some "v1" →
          shardFormat fs p = Except.ok (b1, fi.size)) ∧
      (∀ v, Bucket.Get bk "format" = some v → v ≠ "v1" →
          shardFormat fs p = Except.ok (bz1, fi.size)) ∧
      (Bucket.Get bk "format" = none →
          shardFormat fs p = Except.ok (bz1, fi.size))) := by
  have hsf : shardFormat fs p = Except.ok (viewFormat db, fi.size) := by
    simp [shardFormat, hop, hst, hd, hbo]
  refine ⟨fun hB => ?_, fun bk hB => ⟨fun hv => ?_, fun v hv hne => ?_, fun hv => ?_⟩⟩
  · rw [hsf]; simp [viewFormat, hB]
  · rw [hsf]; simp [viewFormat, hB, hv]
  · rw [hsf]; simp only [viewFormat, hB, hv, Option.getD_some]
    rw [if_neg hne]
  · rw [hsf]; simp only [viewFormat, hB, hv, Option.getD_none]
    rw [if_neg (by decide)]

/-- Witness for C2: on `boltFS`, the file `f0` has no "meta" bucket and is
classified `b1`; `f2` has `format = "v2"` and is classified `bz1`. -/
theorem shardFormat_bolt_classification_witness :
    shardFormat boltFS "f0" = Except.ok (b1, 100) ∧
    shardFormat boltFS "f2" = Except.ok (bz1, 100) :=
  ⟨(shardFormat_bolt_classification boltFS "f0" ⟨false, 100⟩ ⟨[]⟩
      rfl rfl rfl rfl).1 rfl,
   (((shardFormat_bolt_classification boltFS "f2" ⟨false, 100⟩
        ⟨[("meta", ⟨[("format", "v2")]⟩)]⟩ rfl rfl rfl rfl).2
      ⟨[("format", "v2")]⟩ rfl).2.1 "v2" rfl (by decide))⟩

/-- Claim C3: for a path whose stat reports a directory, `shardFormat`
returns `tsm1` regardless of contents, with the stat-reported size of the
directory entry itself, and no error. -/
theorem shardFormat_dir_tsm1 (fs : FS) (p : String) (fi : FileInfo)
    (hop : fs.osOpen p = none) (hst : fs.stat p = Except.ok fi)
    (hd : fi.isDir = true) :
    shardFormat fs p = Except.ok (tsm1, fi.size) := by
  simp [shardFormat, hop, hst, hd]

/-- Witness for C3: the directory shard `data/db/rp0/s0` of `dirFS`. -/
theorem shardFormat_dir_tsm1_witness :
    dirFS.stat "data/db/rp0/s0" = Except.ok ⟨true, 4096⟩ ∧
    shardFormat dirFS "data/db/rp0/s0" = Except.ok (tsm1, 4096) :=
  ⟨rfl, shardFormat_dir_tsm1 dirFS "data/db/rp0/s0" ⟨true, 4096⟩ rfl rfl rfl⟩

/-- Claim C4: whenever two records agree on database and retention
policy, `Less` returns `false` — the tertiary comparison compares a path
to itself and never distinguishes the pair, whatever the paths are. -/
theorem less_tie_false (a b : ShardInfo) (hdb : a.Database = b.Database)
    (hrp : a.RetentionPolicy = b.RetentionPolicy) :
    ShardInfos.Less a b = false := by
  unfold ShardInfos.Less
  rw [if_pos hdb, if_pos hrp]
  exact strLt_self a.Path

/-- Witness for C4: two records tied on database and retention policy but
with different paths still compare `false`. -/
theorem less_tie_false_witness :
    (ShardInfo.mk "db" "rp" "p1" 0 0).Path ≠ (ShardInfo.mk "db" "rp" "p2" 0 0).Path ∧
    ShardInfos.Less (ShardInfo.mk "db" "rp" "p1" 0 0)
      (ShardInfo.mk "db" "rp" "p2" 0 0) = false :=
  ⟨by decide, less_tie_false (ShardInfo.mk "db" "rp" "p1" 0 0)
    (ShardInfo.mk "db" "rp" "p2" 0 0) rfl rfl⟩

/-- Claim C5: a successful `Shards` call returns records nondecreasing by
database name (lexicographic) and, within equal database names,
nondecreasing by retention-policy name. -/
theorem shards_result_sorted (fs : FS) (d : Database) (l : List ShardInfo)
    (h : Database.Shards fs d = Except.ok l) :
    l.Pairwise (fun a b =>
      a.Database ≤ b.Database ∧
        (a.Database = b.Database → a.RetentionPolicy ≤ b.RetentionPolicy)) := by
  obtain ⟨infos, _, rfl⟩ := shards_ok_elim fs d l h
  exact (List.sorted_insertionSort shardLE infos).imp fun hab => (shardLE_iff _ _).mp hab

/-- Witness for C5: scanning `dirFS` succeeds and the result (listed by
the traversal as rp1 before rp0) comes back sorted rp0 before rp1. -/
theorem shards_result_sorted_witness :
    Database.Shards dirFS (NewDatabase "data/db") = Except.ok dirShards ∧
    dirShards.Pairwise (fun a b =>
      a.Database ≤ b.Database ∧
        (a.Database = b.Database → a.RetentionPolicy ≤ b.RetentionPolicy)) :=
  ⟨rfl, shards_result_sorted dirFS (NewDatabase "data/db") dirShards rfl⟩

/-- Claim C6: `Filter fmt` returns exactly the entries whose format
differs from `fmt`, in their original relative order (the right-hand
`List.filter` keeps exactly those entries in order; the input itself is a
value and is unchanged). -/
theorem filter_spec (s : ShardInfos) (fmt : EngineFormat) :
    ShardInfos.Filter s fmt = s.filter (fun ss => decide (ss.Format ≠ fmt)) := by
  unfold ShardInfos.Filter
  simpa using filter_foldl_eq fmt s []

/-- Claim C7: `Databases` returns a duplicate-free list, sorted ascending
lexicographically, whose members are exactly the distinct `Database`
values of the sequence. -/
theorem databases_spec (s : ShardInfos) :
    (ShardInfos.Databases s).Nodup ∧
    List.Sorted (· ≤ ·) (ShardInfos.Databases s) ∧
    ∀ x : String, x ∈ ShardInfos.Databases s ↔ ∃ si ∈ s, si.Database = x := by
  unfold ShardInfos.Databases
  refine ⟨?_, ?_, ?_⟩
  · exact ((List.perm_insertionSort strOrd _).nodup_iff).mpr (List.nodup_dedup _)
  · exact (List.sorted_insertionSort strOrd _).imp fun h => (strOrd_iff _ _).mp h
  · intro x
    rw [(List.perm_insertionSort strOrd _).mem_iff, List.mem_dedup, List.mem_map]

/-- Claim C8: `FormatAsString` maps `b1` to "b1", `bz1` to "bz1", `tsm1`
to "tsm1", and for any format outside the enumeration takes the `panic`
branch (modelled as `none`: no label is returned and execution does not
continue). -/
theorem formatAsString_spec :
    (∀ s : ShardInfo, s.Format = b1 → ShardInfo.FormatAsString s = some "b1") ∧
    (∀ s : ShardInfo, s.Format = bz1 → ShardInfo.FormatAsString s = some "bz1") ∧
    (∀ s : ShardInfo, s.Format = tsm1 → ShardInfo.FormatAsString s = some "tsm1") ∧
    (∀ s : ShardInfo, s.Format ≠ b1 → s.Format ≠ bz1 → s.Format ≠ tsm1 →
      ShardInfo.FormatAsString s = none) := by
  refine ⟨fun s h => ?_, fun s h => ?_, fun s h => ?_, fun s h1 h2 h3 => ?_⟩
  · simp [ShardInfo.FormatAsString, h, b1, bz1, tsm1]
  · simp [ShardInfo.FormatAsString, h, b1, bz1, tsm1]
  · simp [ShardInfo.FormatAsString, h, b1, bz1, tsm1]
  · simp [ShardInfo.FormatAsString, h1, h2, h3]

/-- Witness for C8: the three labels at the three enumeration values, and
the panic branch at the unconstructible-by-the-scan value 7. -/
theorem formatAsString_spec_witness :
    ShardInfo.FormatAsString (ShardInfo.mk "d" "r" "p" b1 0) = some "b1" ∧
    ShardInfo.FormatAsString (ShardInfo.mk "d" "r" "p" bz1 0) = some "bz1" ∧
    ShardInfo.FormatAsString (ShardInfo.mk "d" "r" "p" tsm1 0) = some "tsm1" ∧
    ShardInfo.FormatAsString (ShardInfo.mk "d" "r" "p" 7 0) = none :=
  ⟨formatAsString_spec.1 (ShardInfo.mk "d" "r" "p" b1 0) rfl,
   formatAsString_spec.2.1 (ShardInfo.mk "d" "r" "p" bz1 0) rfl,
   formatAsString_spec.2.2.1 (ShardInfo.mk "d" "r" "p" tsm1 0) rfl,
   formatAsString_spec.2.2.2 (ShardInfo.mk "d" "r" "p" 7 0)
     (by decide) (by decide) (by decide)⟩

/-- Claim C9 (counterexample): `EngineFormat` is an integer type, so a
`ShardInfo` whose format lies outside the closed enumeration IS
constructible — refuting "no value outside the enumeration is ever
constructible".  (This representable out-of-range value is exactly why
`FormatAsString` carries a panic branch.) -/
theorem shardInfo_format_outside_enum :
    (ShardInfo.mk "d" "r" "p" 7 0).Format ≠ b1 ∧
    (ShardInfo.mk "d" "r" "p" 7 0).Format ≠ bz1 ∧
    (ShardInfo.mk "d" "r" "p" 7 0).Format ≠ tsm1 := by
  refine ⟨?_, ?_, ?_⟩ <;> decide

/-- Claim C9 (amended): while out-of-enumeration formats are
representable, every format the system itself constructs — the output of
`shardFormat`, the only producer of `ShardInfo.Format` during a scan —
lies in the closed enumeration (and the embedding is pure: no operation
mutates a `ShardInfo`). -/
theorem shardFormat_format_in_enum (fs : FS) (p : String) (f : EngineFormat)
    (sz : Int) (h : shardFormat fs p = Except.ok (f, sz)) :
    f = b1 ∨ f = bz1 ∨ f = tsm1 :=
  shardFormat_ok_format fs p f sz h

/-- Witness for the amended C9: the detector on a concrete directory
shard. -/
theorem shardFormat_format_in_enum_witness :
    shardFormat dirFS "data/db/rp0/s0" = Except.ok (tsm1, 4096) ∧
    (tsm1 = b1 ∨ tsm1 = bz1 ∨ tsm1 = tsm1) :=
  ⟨rfl, shardFormat_format_in_enum dirFS "data/db/rp0/s0" tsm1 4096 rfl⟩

/-- Claim C10: every record of a successful `Shards` call has a format
among `b1`, `bz1`, `tsm1`, so `FormatAsString` on it returns a label and
never reaches the panic branch. -/
theorem shards_result_formats (fs : FS) (d : Database) (l : List ShardInfo)
    (h : Database.Shards fs d = Except.ok l) :
    ∀ si ∈ l, (si.Format = b1 ∨ si.Format = bz1 ∨ si.Format = tsm1) ∧
      (ShardInfo.FormatAsString si).isSome = true := by
  obtain ⟨infos, hpr, rfl⟩ := shards_ok_elim fs d l h
  intro si hsi
  have hmem : si ∈ infos :=
    (List.perm_insertionSort shardLE infos).mem_iff.mp hsi
  have hf := processRps_formats fs (Database.Name d) d.path _ infos hpr si hmem
  refine ⟨hf, ?_⟩
  rcases hf with hf | hf | hf <;>
    simp [ShardInfo.FormatAsString, hf, b1, bz1, tsm1]

/-- Witness for C10: the first record of the concrete scan of `dirFS`. -/
theorem shards_result_formats_witness :
    Database.Shards dirFS (NewDatabase "data/db") = Except.ok dirShards ∧
    ((ShardInfo.mk "db" "rp0" "s0" tsm1 4096).Format = b1 ∨
      (ShardInfo.mk "db" "rp0" "s0" tsm1 4096).Format = bz1 ∨
      (ShardInfo.mk "db" "rp0" "s0" tsm1 4096).Format = tsm1) ∧
    (ShardInfo.FormatAsString (ShardInfo.mk "db" "rp0" "s0" tsm1 4096)).isSome = true :=
  ⟨rfl, shards_result_formats dirFS (NewDatabase "data/db") dirShards rfl
    (ShardInfo.mk "db" "rp0" "s0" tsm1 4096) (by decide)⟩

end InfluxTsm
